import Mathlib

/-!
Verification development for the ASCII Agent change-driven regeneration
pipeline.  The definitions below are shallow embeddings of the TypeScript
sources:

* `src/watcher.ts`   — event classification and the two debounce timers;
* `src/history.ts`   — snapshot saving and oldest-first pruning;
* `src/architecture-agent.ts` — token-budgeted source-context gathering;
* `src/lm-client.ts` (and the bundled `out/extension.js` variant) — the
  single-flight request arbiter with quota cooldown.

Machine integers are modelled as `Nat` (the quantities involved — times,
token counts, list lengths — are non-negative and far from any overflow
boundary in the source).  Glob matching (`matchesAnyPattern`) is abstracted
as a boolean predicate parameter, which is exactly the generality the
classification claims quantify over ("for every ignore-pattern
configuration").
-/

namespace AsciiAgent

/-! ## Watcher: event classification (src/watcher.ts, classifyEvent) -/

/-- Result of classifying a file-system event, mirroring the string union
`"ignore" | "tree-only" | "tree-and-arch"` in `classifyEvent`. -/
inductive EventClass where
  | ignore : EventClass
  | treeOnly : EventClass
  | treeAndArch : EventClass
deriving DecidableEq, Repr

/-- Output-path configuration: `config.outputPaths` from `types.ts`. -/
structure OutputPaths where
  fileTree : String
  architecture : String
deriving DecidableEq, Repr

/-- Model of the JavaScript `s.startsWith(pre)` test on strings, stated on
the underlying character lists so that it evaluates by `decide`. -/
def strStartsWith (s pre : String) : Bool :=
  pre.data.isPrefixOf s.data

/-- The last path segment, mirroring `relPath.split("/").pop() ?? ""`. -/
def lastSegment (relPath : String) : String :=
  (relPath.splitOn "/").getLastD ""

/-- Embedding of `classifyEvent` from `src/watcher.ts` (lines 81–105).

The two glob tests `matchesAnyPattern(·, config.ignore)` and
`matchesAnyPattern(·, config.architectureWatchPatterns)` are abstracted as
the boolean predicates `ignoreMatch` and `archMatch`; the checks appear in
exactly the source order: output paths first, then the retention directory,
then ignore patterns, then architecture patterns. -/
def classifyEvent (out : OutputPaths) (ignoreMatch archMatch : String → Bool)
    (relPath : String) : EventClass :=
  if relPath = out.fileTree ∨ relPath = out.architecture then
    .ignore
  else if strStartsWith relPath ".ascii_history/" ∨ relPath = ".ascii_history" then
    .ignore
  else if ignoreMatch relPath ∨ ignoreMatch (lastSegment relPath) then
    .ignore
  else if archMatch relPath then
    .treeAndArch
  else
    .treeOnly

/-! ## Watcher: debounce timers (src/watcher.ts) -/

/-- The two module-level debounce timer handles of `watcher.ts`
(`treeDebounceTimer`, `archDebounceTimer`), each modelled as the absolute
time at which the pending `setTimeout` callback is due, or `none` when no
timer is pending. -/
structure TimerState where
  treeDebounceTimer : Option Nat
  archDebounceTimer : Option Nat
deriving DecidableEq, Repr

/-- Embedding of `scheduleTreeRegen`: clear any pending tree timer and
schedule a fresh one `debounceMs` from `now`. -/
def scheduleTreeRegen (debounceMs now : Nat) (s : TimerState) : TimerState :=
  { s with treeDebounceTimer := some (now + debounceMs) }

/-- Embedding of `scheduleArchRegen`: clear any pending architecture timer
and schedule a fresh one `debounceMs` from `now`. -/
def scheduleArchRegen (debounceMs now : Nat) (s : TimerState) : TimerState :=
  { s with archDebounceTimer := some (now + debounceMs) }

/-- Embedding of `handleEvent` from `src/watcher.ts` (lines 148–160): an
`ignore` classification returns without touching either timer; otherwise the
tree timer is (re)started, and for `tree-and-arch` the architecture timer as
well. -/
def handleEvent (out : OutputPaths) (ignoreMatch archMatch : String → Bool)
    (debounceMs now : Nat) (relPath : String) (s : TimerState) : TimerState :=
  match classifyEvent out ignoreMatch archMatch relPath with
  | .ignore => s
  | .treeOnly => scheduleTreeRegen debounceMs now s
  | .treeAndArch => scheduleArchRegen debounceMs now (scheduleTreeRegen debounceMs now s)

/-! ## Watcher: timed event-loop semantics for the debounce run

The extension runs on a single-threaded event loop: a `setTimeout` callback
due at time `p` runs before any file-system event arriving at a later time
`t ≥ p`, and `clearTimeout` removes a pending callback.  `runTreeFires`
replays a time-ordered list of `(time, path)` change events through
`handleEvent` and returns the times at which the tree-regeneration callback
fires. -/

/-- Fires produced by a pending timer before an event at time `t`: the
callback due at `p` has already run exactly when `p ≤ t`. -/
def dueFires (pending : Option Nat) (t : Nat) : List Nat :=
  match pending with
  | some p => if p ≤ t then [p] else []
  | none => []

/-- The pending timer after the instant `t` is reached: a callback due at
`p ≤ t` has run and cleared itself (`treeDebounceTimer = undefined` at the
top of the callback). -/
def duePending (pending : Option Nat) (t : Nat) : Option Nat :=
  match pending with
  | some p => if p ≤ t then none else some p
  | none => pending

/-- Replay timed change events through `handleEvent`, collecting the times
at which the tree-regeneration timer fires; after the last event, a still
pending timer fires at its deadline. -/
def runTreeFiresAux (out : OutputPaths) (ignoreMatch archMatch : String → Bool)
    (debounceMs : Nat) : List (Nat × String) → TimerState → List Nat
  | [], s =>
      match s.treeDebounceTimer with
      | some p => [p]
      | none => []
  | (t, path) :: rest, s =>
      dueFires s.treeDebounceTimer t ++
        runTreeFiresAux out ignoreMatch archMatch debounceMs rest
          (handleEvent out ignoreMatch archMatch debounceMs t path
            { s with treeDebounceTimer := duePending s.treeDebounceTimer t })

/-- Tree-fire times of a whole watcher run started with no pending timers. -/
def runTreeFires (out : OutputPaths) (ignoreMatch archMatch : String → Bool)
    (debounceMs : Nat) (events : List (Nat × String)) : List Nat :=
  runTreeFiresAux out ignoreMatch archMatch debounceMs events ⟨none, none⟩

/-! ## Context assembler (src/architecture-agent.ts, gatherSourceContext)

The accumulation loop of `gatherSourceContext` reads each prioritized
candidate, wraps it in a file-section header, measures the section, and
stops (`break`) as soon as adding a section would exceed the token budget.
Candidates whose read fails are skipped by a `continue` without touching
the budget, so the modelled input list is the list of readable candidates
in priority order.  The measurement is `model.countTokens` when a model is
available and the character heuristic `Math.ceil(length / 4)` otherwise;
it is abstracted as a `measure` parameter, with `heurTokens` the concrete
heuristic. -/

/-- Section text for one candidate, mirroring
the template used for `fileSection` in `gatherSourceContext`. -/
def fileSection (relPath content : String) : String :=
  "// File: " ++ relPath ++ "\n" ++ content ++ "\n"

/-- Character-count token heuristic `Math.ceil(fileSection.length / 4)`. -/
def heurTokens (s : String) : Nat :=
  (s.length + 3) / 4

/-- Embedding of the accumulation loop of `gatherSourceContext`
(architecture-agent.ts lines 281–303): returns the list of included file
sections.  `usedTokens` threads the running total; the `break` on budget
overflow drops the current candidate and all remaining ones. -/
def gatherLoop (measure : String → Nat) (tokenBudget : Nat) :
    List (String × String) → Nat → List String
  | [], _ => []
  | (relPath, content) :: rest, usedTokens =>
      let fs := fileSection relPath content
      let tokenCount := measure fs
      if usedTokens + tokenCount > tokenBudget then []
      else fs :: gatherLoop measure tokenBudget rest (usedTokens + tokenCount)

/-- Embedding of `gatherSourceContext`: the concatenation
`sections.join("\n---\n")` of the included sections. -/
def gatherSourceContext (measure : String → Nat) (tokenBudget : Nat)
    (prioritized : List (String × String)) : String :=
  String.intercalate "\n---\n" (gatherLoop measure tokenBudget prioritized 0)

/-- Cumulative measured size of a list of included sections. -/
def selectionCost (measure : String → Nat) (sections : List String) : Nat :=
  (sections.map measure).sum

/-! ## Snapshot store (src/history.ts)

A directory state is a list of entries with a name, a file kind
(`vscode.FileType`) and a modification time; the stat-failure path of the
source (`mtime = 0`, deleted first) is representable by an entry with
`mtime = 0`.  `pruneDeletes` computes the names that
`pruneSnapshots(workspaceRoot, maxSnapshots)` deletes, and `pruneRemaining`
the directory contents afterwards (deletes modelled as succeeding; failures
are best-effort-ignored by the source).  The JavaScript
`withMtimes.sort((a, b) => a.mtime - b.mtime)` is a stable ascending sort,
modelled by `List.insertionSort`, which is stable. -/

/-- File kind of a directory entry, mirroring `vscode.FileType`. -/
inductive FileKind where
  | unknown : FileKind
  | file : FileKind
  | directory : FileKind
  | symbolicLink : FileKind
deriving DecidableEq, Repr

/-- One entry of the retention directory listing, with its stat mtime. -/
structure DirEntry where
  name : String
  kind : FileKind
  mtime : Nat
deriving DecidableEq, Repr

/-- Model of the JavaScript `s.endsWith(suf)` test on strings. -/
def strEndsWith (s suf : String) : Bool :=
  suf.data.isSuffixOf s.data

/-- The snapshot filter of `pruneSnapshots` (history.ts lines 216–218):
regular files whose names end in `.txt`. -/
def isSnapshotFile (e : DirEntry) : Bool :=
  e.kind == .file && strEndsWith e.name ".txt"

/-- Stable ascending sort by modification time, modelling
`withMtimes.sort((a, b) => a.mtime - b.mtime)`. -/
def sortByMtime (l : List DirEntry) : List DirEntry :=
  List.insertionSort (fun a b => a.mtime ≤ b.mtime) l

/-- Embedding of `pruneSnapshots` (history.ts lines 204–250), as the list of
names it deletes: filter to `.txt` regular files, return early when the
count does not exceed `maxSnapshots`, otherwise delete the oldest until
`maxSnapshots - 1` remain. -/
def pruneDeletes (entries : List DirEntry) (maxSnapshots : Nat) : List String :=
  let snapshots := entries.filter isSnapshotFile
  if snapshots.length ≤ maxSnapshots then []
  else
    let sorted := sortByMtime snapshots
    let targetCount := maxSnapshots - 1
    (sorted.take (sorted.length - targetCount)).map DirEntry.name

/-- Directory contents after a `pruneSnapshots` run. -/
def pruneRemaining (entries : List DirEntry) (maxSnapshots : Nat) : List DirEntry :=
  let deleted := pruneDeletes entries maxSnapshots
  entries.filter (fun e => !(deleted.contains e.name))

/-- One `saveSnapshot` followed by `pruneSnapshots(maxSnapshots)`, the
sequence the extension performs before each architecture overwrite: the
snapshot is a fresh timestamped `.txt` file. -/
def saveThenPrune (maxSnapshots : Nat) (entries : List DirEntry)
    (nameMtime : String × Nat) : List DirEntry :=
  pruneRemaining (entries ++ [⟨nameMtime.1, .file, nameMtime.2⟩]) maxSnapshots

/-- The spec scenario: retention max 3, five snapshots saved sequentially
with a prune after each save, starting from an empty retention directory. -/
def scenarioRun : List DirEntry :=
  [("architecture_t1.txt", 1), ("architecture_t2.txt", 2), ("architecture_t3.txt", 3),
   ("architecture_t4.txt", 4), ("architecture_t5.txt", 5)].foldl (saveThenPrune 3) []

/-- A retention directory holding exactly three snapshot files. -/
def histThree : List DirEntry :=
  [⟨"architecture_t1.txt", .file, 1⟩, ⟨"architecture_t2.txt", .file, 2⟩,
   ⟨"architecture_t3.txt", .file, 3⟩]

/-- A retention directory holding four snapshot files plus a subdirectory
and a non-`.txt` file. -/
def histMixed : List DirEntry :=
  [⟨"architecture_t1.txt", .file, 1⟩, ⟨"architecture_t2.txt", .file, 2⟩,
   ⟨"architecture_t3.txt", .file, 3⟩, ⟨"architecture_t4.txt", .file, 4⟩,
   ⟨"nested", .directory, 0⟩, ⟨"notes.md", .file, 0⟩]

/-! ## Watcher: session disposal (src/watcher.ts)

`treeDebounceTimer` and `archDebounceTimer` are declared with module-level
`let` (watcher.ts lines 25–33, "shared so extension.ts can cancel them"),
so every session produced by `startWatching` closes over the same two
handles: there is one `TimerState` for the whole module, not one per
session.  `sessionDispose` is the timer-clearing part of the `dispose`
closure (lines 169–188) and `cancelPendingTimers` the exported function
(lines 204–213); both clear the shared handles. -/

/-- Timer-clearing effect of a watcher session `dispose()` on the shared
module-level timer state. -/
def sessionDispose (_ : TimerState) : TimerState :=
  ⟨none, none⟩

/-- Embedding of the exported `cancelPendingTimers()`:
clears both shared module-level timers without firing them. -/
def cancelPendingTimers (_ : TimerState) : TimerState :=
  ⟨none, none⟩

/-! ## LM client (src/lm-client.ts and bundled out/extension.js)

`createLmClient` closes over `cachedModel`, `quotaCooldown`, a
`cooldownTimer` handle and the single `currentRequestCts`.  The cooldown
timer is modelled like the debounce timers: an absolute expiry deadline.
The request slot is modelled by the id of the installed
`CancellationTokenSource` plus the sets of ids that have been cancelled and
disposed. -/

/-- Quota-exceeded cooldown duration (`QUOTA_COOLDOWN_MS = 60_000`). -/
def QUOTA_COOLDOWN_MS : Nat := 60000

/-- Retry delay for unknown errors (`RETRY_DELAY_MS = 3_000`). -/
def RETRY_DELAY_MS : Nat := 3000

/-- Availability-relevant closure state of an `LmClient`. -/
structure LmClientState where
  cachedModel : Bool
  quotaCooldown : Bool
  cooldownTimer : Option Nat
deriving DecidableEq, Repr

/-- Embedding of the quota branch of `handleLanguageModelError` (lm-client.ts
lines 206–218): set the cooldown flag and schedule its reset
`QUOTA_COOLDOWN_MS` from now; the current call is failed (thrown) without
retry. -/
def handleQuotaError (now : Nat) (s : LmClientState) : LmClientState :=
  { s with quotaCooldown := true, cooldownTimer := some (now + QUOTA_COOLDOWN_MS) }

/-- Event-loop clock advance for the cooldown timer: the `setTimeout`
callback due at `p ≤ now` has run and cleared the cooldown flag. -/
def runCooldownTimer (now : Nat) (s : LmClientState) : LmClientState :=
  match s.cooldownTimer with
  | some p => if p ≤ now then { s with quotaCooldown := false, cooldownTimer := none } else s
  | none => s

/-- Embedding of `isAvailable()` from `src/lm-client.ts` (lines 255–257):
a synchronous read of the closure state. -/
def isAvailable (s : LmClientState) : Bool :=
  s.cachedModel && !s.quotaCooldown

/-- Embedding of the `isAvailable()` shipped in the bundled
`out/extension.js` (lines 820–825): when no model is cached yet it first
awaits `initialSelectionPromise`; `pendingSelection = some r` models an
in-flight selection that will resolve caching a model iff `r`. -/
def isAvailableAwait (cachedModel quotaCooldown : Bool)
    (pendingSelection : Option Bool) : Bool :=
  (if cachedModel then true
   else match pendingSelection with
        | some r => r
        | none => cachedModel) && !quotaCooldown

/-- Outcome of the guard section at the top of `sendPrompt` (lm-client.ts
lines 110–120), which runs before any cancellation bookkeeping and before
`executeRequest` is ever reached: during quota cooldown the call throws
immediately, contacting no service and performing no retry. -/
inductive SendGate where
  | cooldownRejected : SendGate
  | noModel : SendGate
  | proceed : SendGate
deriving DecidableEq, Repr

/-- Embedding of the `sendPrompt` guards: cooldown check first, then the
model-availability check. -/
def sendPromptGate (s : LmClientState) : SendGate :=
  if s.quotaCooldown then .cooldownRejected
  else if !s.cachedModel then .noModel
  else .proceed

/-! ## Request arbiter: single-flight cancellation (src/lm-client.ts)

`sendPrompt` (lines 106–149) owns the single `currentRequestCts` slot:
before creating the new request token it cancels and disposes any handle
found in the slot.  `executeRequest` (lines 159–197) streams the response,
checking `token.isCancellationRequested` before accumulating each chunk and
returning the text accumulated so far — a normal return, not a thrown
error. -/

/-- Arbiter closure state: the id of the installed
`CancellationTokenSource` (the slot holds at most one handle by
construction) and which ids have been cancelled / disposed. -/
structure ArbiterState where
  currentRequestCts : Option Nat
  cancelledIds : List Nat
  disposedIds : List Nat
deriving DecidableEq, Repr

/-- Observable steps performed by the prologue of `sendPrompt`. -/
inductive ArbiterEvent where
  | cancelPrior : Nat → ArbiterEvent
  | disposePrior : Nat → ArbiterEvent
  | install : Nat → ArbiterEvent
  | beginRequest : Nat → ArbiterEvent
deriving DecidableEq, Repr

/-- Embedding of the prologue of `sendPrompt` (lines 122–141): cancel and
dispose any in-flight handle, install a fresh one, then begin the request.
The returned event list records the order in which these effects occur. -/
def sendPromptPrologue (s : ArbiterState) (newId : Nat) :
    ArbiterState × List ArbiterEvent :=
  match s.currentRequestCts with
  | some old =>
      ({ currentRequestCts := some newId,
         cancelledIds := old :: s.cancelledIds,
         disposedIds := old :: s.disposedIds },
       [.cancelPrior old, .disposePrior old, .install newId, .beginRequest newId])
  | none =>
      ({ s with currentRequestCts := some newId },
       [.install newId, .beginRequest newId])

/-- Embedding of the streaming loop of `executeRequest` (lines 168–176):
the cancellation flag is checked before each chunk is appended.
`cancelFrom = some k` models cooperative cancellation becoming observable
after `k` chunks have been accumulated; `none` models a request that is
never cancelled.  Both paths return the accumulated text normally. -/
def streamLoop : List String → Option Nat → String
  | [], _ => ""
  | _ :: _, some 0 => ""
  | c :: rest, some (k + 1) => c ++ streamLoop rest (some k)
  | c :: rest, none => c ++ streamLoop rest none

/-! ## Theorems -/

/-- C1: a change event whose workspace-relative path equals one of the two
configured output artifact paths, or equals `.ascii_history` or lies under
`.ascii_history/`, is classified `ignore` and leaves both debounce timers
untouched — for every ignore-pattern and architecture-pattern configuration,
because the output-path and retention-directory checks are performed before
pattern matching. -/
theorem classifyEvent_self_write_ignored
    (out : OutputPaths) (ignoreMatch archMatch : String → Bool)
    (debounceMs now : Nat) (relPath : String) (s : TimerState)
    (h : relPath = out.fileTree ∨ relPath = out.architecture ∨
         relPath = ".ascii_history" ∨ strStartsWith relPath ".ascii_history/" = true) :
    classifyEvent out ignoreMatch archMatch relPath = .ignore ∧
    handleEvent out ignoreMatch archMatch debounceMs now relPath s = s := by
  have hclass : classifyEvent out ignoreMatch archMatch relPath = .ignore := by
    unfold classifyEvent
    rcases h with h | h | h | h
    · rw [if_pos (Or.inl h)]
    · rw [if_pos (Or.inr h)]
    · by_cases hout : relPath = out.fileTree ∨ relPath = out.architecture
      · rw [if_pos hout]
      · rw [if_neg hout, if_pos (Or.inr h)]
    · by_cases hout : relPath = out.fileTree ∨ relPath = out.architecture
      · rw [if_pos hout]
      · rw [if_neg hout, if_pos (Or.inl h)]
  refine ⟨hclass, ?_⟩
  unfold handleEvent
  rw [hclass]

/-- The accumulation loop keeps the running total within budget: starting
from any already-used amount not exceeding the budget, the cost of what the
loop adds stays within the remainder. -/
theorem gatherLoop_cost_le (measure : String → Nat) (tokenBudget : Nat) :
    ∀ (cs : List (String × String)) (usedTokens : Nat),
      usedTokens ≤ tokenBudget →
      usedTokens + selectionCost measure (gatherLoop measure tokenBudget cs usedTokens)
        ≤ tokenBudget := by
  intro cs
  induction cs with
  | nil => intro usedTokens h; simpa [gatherLoop, selectionCost] using h
  | cons c rest ih =>
      intro usedTokens h
      obtain ⟨relPath, content⟩ := c
      by_cases hover : usedTokens + measure (fileSection relPath content) > tokenBudget
      · simpa [gatherLoop, hover, selectionCost] using h
      · have hfit : usedTokens + measure (fileSection relPath content) ≤ tokenBudget :=
          le_of_not_lt hover
        have hrec := ih (usedTokens + measure (fileSection relPath content)) hfit
        simp only [selectionCost] at hrec
        simp only [gatherLoop, hover, if_false, selectionCost, List.map_cons, List.sum_cons]
        omega

/-- Every file section measures at least one token under the character
heuristic, because the `// File:` header alone is non-empty. -/
theorem heurTokens_fileSection_pos (relPath content : String) :
    1 ≤ heurTokens (fileSection relPath content) := by
  have hlen : 1 ≤ (fileSection relPath content).length := by
    have h9 : ("// File: " : String).length = 9 := by decide
    have h1 : ("\n" : String).length = 1 := by decide
    simp [fileSection, String.length_append, h9, h1]
  simp only [heurTokens]
  omega

/-- C4: the selection assembled by `gatherSourceContext` never has
cumulative measured size exceeding the token budget, for every candidate
list, budget and measurement; with budget 0 the selection is empty under the
character heuristic; and a single candidate measuring more than the budget
yields an empty selection. -/
theorem gather_budget_never_exceeded
    (measure : String → Nat) (tokenBudget budget2 : Nat) (cs cs' : List (String × String))
    (relPath content : String)
    (hbig : heurTokens (fileSection relPath content) > budget2) :
    selectionCost measure (gatherLoop measure tokenBudget cs 0) ≤ tokenBudget ∧
    gatherLoop heurTokens 0 cs' 0 = [] ∧
    gatherLoop heurTokens budget2 [(relPath, content)] 0 = [] := by
  refine ⟨?_, ?_, ?_⟩
  · simpa using gatherLoop_cost_le measure tokenBudget cs 0 (Nat.zero_le _)
  · cases cs' with
    | nil => rfl
    | cons c rest =>
        obtain ⟨p, q⟩ := c
        have hpos := heurTokens_fileSection_pos p q
        simp [gatherLoop]
        omega
  · simp [gatherLoop]
    omega

/-- Witness for C4: with the character heuristic, a one-candidate list
within budget 100 keeps cost within budget, budget 0 selects nothing, and a
single 9-token candidate against budget 5 selects nothing. -/
theorem gather_budget_never_exceeded_witness :
    selectionCost heurTokens (gatherLoop heurTokens 100 [("a", "hello")] 0) ≤ 100 ∧
    gatherLoop heurTokens 0 [("a", "hello")] 0 = [] ∧
    gatherLoop heurTokens 5 [("b", "0123456789012345678901")] 0 = [] :=
  gather_budget_never_exceeded heurTokens 100 5 [("a", "hello")] [("a", "hello")]
    "b" "0123456789012345678901" (by decide)

/-- C6 counterexample: with the character heuristic and budget 6, the
candidates `a` (3 tokens), `b` (13 tokens) and `c` (3 tokens) in priority
order produce the selection `[a]` only: although `c` still fits the
remaining budget (3 + 3 ≤ 6), the loop stopped at the oversized `b` instead
of skipping it and continuing, so `c` is not included — refuting the claim
that assembly continues past an oversized candidate. -/
theorem gather_skip_continue_counterexample :
    gatherLoop heurTokens 6
        [("a", ""), ("b", "01234567890123456789012345678901234567"), ("c", "")] 0
      = [fileSection "a" ""] ∧
    heurTokens (fileSection "a" "") + heurTokens (fileSection "c" "") ≤ 6 ∧
    fileSection "c" "" ∉ gatherLoop heurTokens 6
        [("a", ""), ("b", "01234567890123456789012345678901234567"), ("c", "")] 0 := by
  refine ⟨by decide, by decide, ?_⟩
  intro hmem
  revert hmem
  decide

/-- C6 amended: a candidate whose measured size exceeds the remaining
budget terminates the assembly immediately — it and every lower-priority
candidate after it are excluded, even those that would individually fit the
remaining budget (first-fit-stop, no skip-and-continue). -/
theorem gather_stop_at_first_overflow
    (measure : String → Nat) (tokenBudget usedTokens : Nat)
    (relPath content : String) (rest : List (String × String))
    (hover : usedTokens + measure (fileSection relPath content) > tokenBudget) :
    gatherLoop measure tokenBudget ((relPath, content) :: rest) usedTokens = [] := by
  simp [gatherLoop, hover]

/-- Witness for C6 amended: the oversized candidate `b` at budget 6 ends the
assembly with nothing more included. -/
theorem gather_stop_at_first_overflow_witness :
    gatherLoop heurTokens 6
        [("b", "01234567890123456789012345678901234567"), ("c", "")] 3 = [] :=
  gather_stop_at_first_overflow heurTokens 6 3 "b"
    "01234567890123456789012345678901234567" [("c", "")] (by decide)

/-- A qualifying (non-ignored) event always (re)starts the tree debounce
timer: both non-ignore branches of `handleEvent` call `scheduleTreeRegen`. -/
theorem handleEvent_treeTimer_of_qualifying
    (out : OutputPaths) (ignoreMatch archMatch : String → Bool)
    (debounceMs now : Nat) (relPath : String) (s : TimerState)
    (h : classifyEvent out ignoreMatch archMatch relPath ≠ .ignore) :
    (handleEvent out ignoreMatch archMatch debounceMs now relPath s).treeDebounceTimer
      = some (now + debounceMs) := by
  unfold handleEvent
  cases hc : classifyEvent out ignoreMatch archMatch relPath with
  | ignore => exact absurd hc h
  | treeOnly => rfl
  | treeAndArch => rfl

/-- Replaying a qualifying burst against a pending timer that is due after
the first event of the burst yields exactly one fire, at `debounceMs` after
the last event. -/
theorem runTreeFiresAux_burst
    (out : OutputPaths) (ignoreMatch archMatch : String → Bool) (debounceMs : Nat) :
    ∀ (rest : List (Nat × String)) (tPrev : Nat) (s : TimerState),
      s.treeDebounceTimer = some (tPrev + debounceMs) →
      (∀ e ∈ rest, classifyEvent out ignoreMatch archMatch e.2 ≠ .ignore) →
      List.Chain (fun a b => a ≤ b ∧ b < a + debounceMs) tPrev (rest.map Prod.fst) →
      runTreeFiresAux out ignoreMatch archMatch debounceMs rest s
        = [(rest.map Prod.fst).getLastD tPrev + debounceMs] := by
  intro rest
  induction rest with
  | nil =>
      intro tPrev s hs _ _
      simp [runTreeFiresAux, hs]
  | cons e rest ih =>
      intro tPrev s hs hq hchain
      obtain ⟨t, path⟩ := e
      simp only [List.map_cons, List.chain_cons] at hchain
      obtain ⟨⟨hle, hlt⟩, hchain'⟩ := hchain
      have hnotdue : ¬ (tPrev + debounceMs ≤ t) := not_le.mpr hlt
      have hqual : classifyEvent out ignoreMatch archMatch path ≠ .ignore :=
        hq (t, path) (List.mem_cons_self _ _)
      have hstep :
          (handleEvent out ignoreMatch archMatch debounceMs t path
            { s with treeDebounceTimer := duePending s.treeDebounceTimer t }).treeDebounceTimer
            = some (t + debounceMs) :=
        handleEvent_treeTimer_of_qualifying out ignoreMatch archMatch debounceMs t path _ hqual
      have hrec := ih t _ hstep (fun e he => hq e (List.mem_cons_of_mem _ he)) hchain'
      rw [hs] at hrec
      simp only [runTreeFiresAux, hs, dueFires, hnotdue, if_false, List.nil_append, hrec,
        List.map_cons, List.getLastD_cons]

/-- C2: for every sequence of one or more qualifying (non-Ignored) change
events in which each event arrives strictly less than the quiet period
`debounceMs` after the previous one, exactly one tree-regeneration signal
fires, and it fires at exactly `debounceMs` after the last event of the
sequence. -/
theorem debounce_burst_single_fire
    (out : OutputPaths) (ignoreMatch archMatch : String → Bool)
    (debounceMs t0 : Nat) (path0 : String) (rest : List (Nat × String))
    (hq : ∀ e ∈ (t0, path0) :: rest, classifyEvent out ignoreMatch archMatch e.2 ≠ .ignore)
    (hchain : List.Chain (fun a b => a ≤ b ∧ b < a + debounceMs) t0 (rest.map Prod.fst)) :
    runTreeFires out ignoreMatch archMatch debounceMs ((t0, path0) :: rest)
      = [(rest.map Prod.fst).getLastD t0 + debounceMs] := by
  have hqual : classifyEvent out ignoreMatch archMatch path0 ≠ .ignore :=
    hq (t0, path0) (List.mem_cons_self _ _)
  have hstep :
      (handleEvent out ignoreMatch archMatch debounceMs t0 path0
        { treeDebounceTimer := duePending none t0, archDebounceTimer := none }).treeDebounceTimer
        = some (t0 + debounceMs) :=
    handleEvent_treeTimer_of_qualifying out ignoreMatch archMatch debounceMs t0 path0 _ hqual
  have hrec := runTreeFiresAux_burst out ignoreMatch archMatch debounceMs rest t0 _ hstep
    (fun e he => hq e (List.mem_cons_of_mem _ he)) hchain
  simp only [runTreeFires, runTreeFiresAux, dueFires, duePending, List.nil_append]
  simpa [duePending] using hrec

/-- Witness for C2: quiet period 500 ms and qualifying events at times 0,
100 and 200 yield exactly one tree fire, at time 700. -/
theorem debounce_burst_single_fire_witness :
    runTreeFires ⟨"docs/file_tree.txt", "docs/architecture.txt"⟩
        (fun _ => false) (fun _ => false) 500
        [(0, "src/app.ts"), (100, "src/util.ts"), (200, "README.md")] = [700] := by
  have h := debounce_burst_single_fire
    ⟨"docs/file_tree.txt", "docs/architecture.txt"⟩
    (fun _ => false) (fun _ => false) 500 0 "src/app.ts"
    [(100, "src/util.ts"), (200, "README.md")]
    (by decide) (by norm_num [List.chain_cons])
  simpa using h

/-- Witness for C1: with the default output paths, an arbitrary ignore
configuration that matches nothing, and a change under `.ascii_history/`,
the event is classified `ignore` and a pending-timer state is unchanged. -/
theorem classifyEvent_self_write_ignored_witness :
    classifyEvent ⟨"docs/file_tree.txt", "docs/architecture.txt"⟩
        (fun _ => false) (fun _ => true) ".ascii_history/architecture_1.txt" = .ignore ∧
    handleEvent ⟨"docs/file_tree.txt", "docs/architecture.txt"⟩
        (fun _ => false) (fun _ => true) 2000 5 ".ascii_history/architecture_1.txt"
        ⟨some 7, none⟩ = ⟨some 7, none⟩ :=
  classifyEvent_self_write_ignored
    ⟨"docs/file_tree.txt", "docs/architecture.txt"⟩
    (fun _ => false) (fun _ => true) 2000 5 ".ascii_history/architecture_1.txt"
    ⟨some 7, none⟩
    (Or.inr (Or.inr (Or.inr (by decide))))

/-- The stable mtime sort is a permutation of its input. -/
theorem sortByMtime_perm (l : List DirEntry) : (sortByMtime l).Perm l :=
  List.perm_insertionSort _ l

/-- C5 counterexample: a retention directory holding exactly three `.txt`
snapshots pruned with `maxCount = 3` is left untouched (the early return
fires at `count <= maxSnapshots`), so three snapshots remain — more than
`maxCount - 1 = 2`; and the spec scenario (max 3, five saves each followed
by a prune) ends with three files, the three most recent, not two. -/
theorem prune_retention_counterexample :
    pruneDeletes histThree 3 = [] ∧
    ((pruneRemaining histThree 3).filter isSnapshotFile).length = 3 ∧
    ¬ ((pruneRemaining histThree 3).filter isSnapshotFile).length ≤ 3 - 1 ∧
    scenarioRun =
      [⟨"architecture_t3.txt", .file, 3⟩, ⟨"architecture_t4.txt", .file, 4⟩,
       ⟨"architecture_t5.txt", .file, 5⟩] := by
  refine ⟨by decide, by decide, by decide, by decide⟩

/-- C5 amended: `pruneSnapshots(maxCount)` is a no-op whenever the retention
directory holds at most `maxCount` snapshot files (so up to `maxCount`
snapshots may remain after a successful prune); only when it holds strictly
more are the oldest-by-mtime snapshots deleted, until exactly `maxCount - 1`
remain.  Names in a directory listing are distinct. -/
theorem prune_rotation_behavior (entries : List DirEntry) (maxCount : Nat)
    (hnodup : (entries.map DirEntry.name).Nodup) :
    ((entries.filter isSnapshotFile).length ≤ maxCount →
      pruneDeletes entries maxCount = [] ∧ pruneRemaining entries maxCount = entries) ∧
    (maxCount < (entries.filter isSnapshotFile).length →
      ((pruneRemaining entries maxCount).filter isSnapshotFile).length = maxCount - 1) := by
  constructor
  · intro hle
    have hdel : pruneDeletes entries maxCount = [] := by
      simp [pruneDeletes, hle]
    refine ⟨hdel, ?_⟩
    simp [pruneRemaining, hdel]
  · intro hgt
    have hif : ¬ ((entries.filter isSnapshotFile).length ≤ maxCount) := not_le.mpr hgt
    set snaps := entries.filter isSnapshotFile with hsnaps
    set sorted := sortByMtime snaps with hsorted
    set k := sorted.length - (maxCount - 1) with hk
    have hdel : pruneDeletes entries maxCount = (sorted.take k).map DirEntry.name := by
      simp [pruneDeletes, hif, ← hsnaps, ← hsorted, ← hk]
    have hsortlen : sorted.length = snaps.length := (sortByMtime_perm snaps).length_eq
    -- Names of the sorted snapshot list are distinct.
    have hnodup2 : (sorted.map DirEntry.name).Nodup := by
      have hsub : snaps.Sublist entries := List.filter_sublist entries
      have hsnapsnodup : (snaps.map DirEntry.name).Nodup :=
        (hsub.map DirEntry.name).nodup hnodup
      exact (((sortByMtime_perm snaps).map DirEntry.name).nodup_iff).mpr hsnapsnodup
    -- Snapshot files remaining after the prune, counted on the sorted list.
    have hcomm : (pruneRemaining entries maxCount).filter isSnapshotFile =
        snaps.filter (fun e => !((pruneDeletes entries maxCount).contains e.name)) := by
      simp only [pruneRemaining, hsnaps]
      exact List.filter_comm _ _ entries
    have hpermlen :
        (snaps.filter (fun e => !((pruneDeletes entries maxCount).contains e.name))).length =
        (sorted.filter (fun e => !((pruneDeletes entries maxCount).contains e.name))).length :=
      ((sortByMtime_perm snaps).filter _).length_eq.symm
    -- On the sorted list, the filter removes exactly the taken prefix.
    have htake : (sorted.take k).filter
        (fun e => !((pruneDeletes entries maxCount).contains e.name)) = [] := by
      apply List.filter_eq_nil_iff.mpr
      intro e he
      have hmem : e.name ∈ (sorted.take k).map DirEntry.name := List.mem_map_of_mem _ he
      rw [hdel]
      simp only [Bool.not_eq_true', Bool.not_eq_false]
      exact List.elem_eq_true_of_mem hmem
    have hdrop : (sorted.drop k).filter
        (fun e => !((pruneDeletes entries maxCount).contains e.name)) = sorted.drop k := by
      apply List.filter_eq_self.mpr
      intro e he
      rw [hdel]
      simp only [Bool.not_eq_true']
      apply Bool.eq_false_iff.mpr
      intro hcontains
      have hmemTake : e.name ∈ (sorted.take k).map DirEntry.name := List.elem_iff.mp hcontains
      have hmemDrop : e.name ∈ (sorted.drop k).map DirEntry.name := List.mem_map_of_mem _ he
      have hsplit : ((sorted.take k).map DirEntry.name ++
          (sorted.drop k).map DirEntry.name).Nodup := by
        rw [← List.map_append, List.take_append_drop]
        exact hnodup2
      exact (List.disjoint_of_nodup_append hsplit) hmemTake hmemDrop
    calc ((pruneRemaining entries maxCount).filter isSnapshotFile).length
        = (snaps.filter (fun e => !((pruneDeletes entries maxCount).contains e.name))).length := by
          rw [hcomm]
      _ = (sorted.filter (fun e => !((pruneDeletes entries maxCount).contains e.name))).length :=
          hpermlen
      _ = ((sorted.take k).filter (fun e => !((pruneDeletes entries maxCount).contains e.name)) ++
          (sorted.drop k).filter (fun e => !((pruneDeletes entries maxCount).contains e.name))).length := by
          rw [← List.filter_append, List.take_append_drop]
      _ = (sorted.drop k).length := by rw [htake, hdrop, List.nil_append]
      _ = sorted.length - k := List.length_drop k sorted
      _ = maxCount - 1 := by omega

/-- Witness for C5 amended: four snapshots (plus a subdirectory and a
non-txt file) pruned at max 3 leave exactly two snapshot files. -/
theorem prune_rotation_behavior_witness :
    ((pruneRemaining histMixed 3).filter isSnapshotFile).length = 3 - 1 :=
  (prune_rotation_behavior histMixed 3 (by decide)).2 (by decide)

/-- C10: `pruneSnapshots` considers only regular files whose names end in
`.txt`: every deleted name is the name of such a snapshot file, the prune
outcome is unchanged when all other entries are removed from the listing
(so subdirectories and other extensions never count toward the retention
maximum), and a non-snapshot entry always survives the prune when directory
names are distinct. -/
theorem prune_considers_only_txt_files (entries : List DirEntry) (maxCount : Nat) :
    (∀ n ∈ pruneDeletes entries maxCount,
      n ∈ (entries.filter isSnapshotFile).map DirEntry.name) ∧
    pruneDeletes entries maxCount = pruneDeletes (entries.filter isSnapshotFile) maxCount ∧
    (∀ e ∈ entries, isSnapshotFile e = false → (entries.map DirEntry.name).Nodup →
      e ∈ pruneRemaining entries maxCount) := by
  have hsubset : ∀ n ∈ pruneDeletes entries maxCount,
      n ∈ (entries.filter isSnapshotFile).map DirEntry.name := by
    intro n hn
    unfold pruneDeletes at hn
    by_cases h : (entries.filter isSnapshotFile).length ≤ maxCount
    · simp [h] at hn
    · simp only [h, if_false] at hn
      obtain ⟨e, he, hname⟩ := List.mem_map.mp hn
      have he2 : e ∈ sortByMtime (entries.filter isSnapshotFile) := List.mem_of_mem_take he
      have he3 : e ∈ entries.filter isSnapshotFile := (sortByMtime_perm _).mem_iff.mp he2
      exact hname ▸ List.mem_map_of_mem _ he3
  refine ⟨hsubset, ?_, ?_⟩
  · simp only [pruneDeletes, List.filter_filter, Bool.and_self]
  · intro e he hnotsnap hnodup
    simp only [pruneRemaining]
    apply List.mem_filter.mpr
    refine ⟨he, ?_⟩
    simp only [Bool.not_eq_true']
    apply Bool.eq_false_iff.mpr
    intro hcontains
    have hmem : e.name ∈ pruneDeletes entries maxCount := List.elem_iff.mp hcontains
    obtain ⟨e2, he2, hname2⟩ := List.mem_map.mp (hsubset e.name hmem)
    have he2' : e2 ∈ entries := List.mem_of_mem_filter he2
    have hsnap2 : isSnapshotFile e2 = true := List.of_mem_filter he2
    have heq : e2 = e := List.inj_on_of_nodup_map hnodup he2' he hname2
    rw [heq] at hsnap2
    rw [hnotsnap] at hsnap2
    exact Bool.false_ne_true hsnap2

/-- Witness for C10: in a listing with four snapshots, a subdirectory and a
markdown file pruned at max 3, the deleted name `architecture_t1.txt` is a
snapshot name, and both non-snapshot entries survive. -/
theorem prune_considers_only_txt_files_witness :
    "architecture_t1.txt" ∈ (histMixed.filter isSnapshotFile).map DirEntry.name ∧
    (⟨"nested", .directory, 0⟩ : DirEntry) ∈ pruneRemaining histMixed 3 :=
  ⟨(prune_considers_only_txt_files histMixed 3).1 "architecture_t1.txt" (by decide),
   (prune_considers_only_txt_files histMixed 3).2.2 ⟨"nested", .directory, 0⟩
     (by decide) (by decide) (by decide)⟩

/-- Appending a head string distributes over `String.join`. -/
theorem string_join_cons (c : String) (l : List String) :
    String.join (c :: l) = c ++ String.join l := by
  have haux : ∀ (l : List String) (a b : String),
      List.foldl (fun r s => r ++ s) (a ++ b) l
        = a ++ List.foldl (fun r s => r ++ s) b l := by
    intro l
    induction l with
    | nil => intro a b; rfl
    | cons x xs ih =>
        intro a b
        simp only [List.foldl_cons]
        rw [String.append_assoc]
        exact ih a (b ++ x)
  show List.foldl (fun r s => r ++ s) ("" ++ c) l
      = c ++ List.foldl (fun r s => r ++ s) "" l
  rw [String.empty_append]
  calc List.foldl (fun r s => r ++ s) c l
      = List.foldl (fun r s => r ++ s) (c ++ "") l := by rw [String.append_empty]
    _ = c ++ List.foldl (fun r s => r ++ s) "" l := haux l c ""

/-- A never-cancelled streaming read accumulates every chunk. -/
theorem streamLoop_none_eq_join (chunks : List String) :
    streamLoop chunks none = String.join chunks := by
  induction chunks with
  | nil => rfl
  | cons c rest ih =>
      show c ++ streamLoop rest none = String.join (c :: rest)
      rw [ih, string_join_cons]

/-- A streaming read whose cancellation becomes observable after `k` chunks
returns exactly the first `k` chunks, as a normal return value. -/
theorem streamLoop_cancel_eq_take (chunks : List String) :
    ∀ k : Nat, streamLoop chunks (some k) = String.join (chunks.take k) := by
  induction chunks with
  | nil => intro k; rw [List.take_nil]; rfl
  | cons c rest ih =>
      intro k
      cases k with
      | zero => rfl
      | succ k =>
          show c ++ streamLoop rest (some k) = String.join (c :: rest.take k)
          rw [ih k, string_join_cons]

/-- C3: when `sendPrompt` is called (request 2) while a prior request 1 is
still in flight, the prior handle is cancelled and disposed strictly before
the new request begins (the event order of the prologue); the prior call's
streaming loop returns normally with the text accumulated so far (the first
`k` chunks) rather than throwing; the second call's stream runs to
completion; and afterwards the single request slot holds only the new
un-cancelled handle, so two requests are never in flight simultaneously. -/
theorem single_flight_last_write_wins (chunks1 chunks2 : List String) (k : Nat) :
    (sendPromptPrologue (sendPromptPrologue ⟨none, [], []⟩ 1).1 2).2
      = [.cancelPrior 1, .disposePrior 1, .install 2, .beginRequest 2] ∧
    streamLoop chunks1 (some k) = String.join (chunks1.take k) ∧
    streamLoop chunks2 none = String.join chunks2 ∧
    (sendPromptPrologue (sendPromptPrologue ⟨none, [], []⟩ 1).1 2).1.currentRequestCts
      = some 2 ∧
    1 ∈ (sendPromptPrologue (sendPromptPrologue ⟨none, [], []⟩ 1).1 2).1.cancelledIds ∧
    1 ∈ (sendPromptPrologue (sendPromptPrologue ⟨none, [], []⟩ 1).1 2).1.disposedIds ∧
    2 ∉ (sendPromptPrologue (sendPromptPrologue ⟨none, [], []⟩ 1).1 2).1.cancelledIds := by
  refine ⟨rfl, streamLoop_cancel_eq_take chunks1 k, streamLoop_none_eq_join chunks2,
    rfl, ?_, ?_, ?_⟩
  · show 1 ∈ [1]
    exact List.mem_singleton.mpr rfl
  · show 1 ∈ [1]
    exact List.mem_singleton.mpr rfl
  · show 2 ∉ [1]
    decide

/-- C7: after a quota-exceeded failure at time `t`, with the model still
cached, `isAvailable()` is false immediately; every `sendPrompt` call is
rejected by the cooldown guard before any service contact or retry; the
client stays unavailable at every instant strictly before
`t + QUOTA_COOLDOWN_MS`; and it reads available again once the cooldown
timer callback has run at or after that deadline. -/
theorem quota_cooldown_behavior (s : LmClientState) (t u : Nat)
    (hmodel : s.cachedModel = true) :
    isAvailable (handleQuotaError t s) = false ∧
    sendPromptGate (handleQuotaError t s) = .cooldownRejected ∧
    (u < t + QUOTA_COOLDOWN_MS →
      isAvailable (runCooldownTimer u (handleQuotaError t s)) = false) ∧
    (t + QUOTA_COOLDOWN_MS ≤ u →
      isAvailable (runCooldownTimer u (handleQuotaError t s)) = true) := by
  refine ⟨?_, ?_, ?_, ?_⟩
  · simp [isAvailable, handleQuotaError]
  · simp [sendPromptGate, handleQuotaError]
  · intro hu
    have hnot : ¬ (t + QUOTA_COOLDOWN_MS ≤ u) := not_le.mpr hu
    simp [runCooldownTimer, handleQuotaError, hnot, isAvailable]
  · intro hu
    simp [runCooldownTimer, handleQuotaError, hu, isAvailable, hmodel]

/-- Witness for C7: a quota failure at time 0 with a cached model leaves the
client unavailable at time 59999 and available again at time 60000. -/
theorem quota_cooldown_behavior_witness :
    isAvailable (runCooldownTimer 59999 (handleQuotaError 0 ⟨true, false, none⟩)) = false ∧
    isAvailable (runCooldownTimer 60000 (handleQuotaError 0 ⟨true, false, none⟩)) = true :=
  ⟨(quota_cooldown_behavior ⟨true, false, none⟩ 0 59999 rfl).2.2.1 (by decide),
   (quota_cooldown_behavior ⟨true, false, none⟩ 0 60000 rfl).2.2.2 (by decide)⟩

/-- C8: at the failing startup state — no model cached yet, a model
selection in flight that will succeed, no cooldown — the synchronous
`isAvailable()` of `src/lm-client.ts` answers `false` without waiting (a
false negative), whereas the awaiting `isAvailable()` of the bundled
`out/extension.js` awaits the in-flight selection and answers `true`. -/
theorem isAvailable_startup_race :
    isAvailable ⟨false, false, none⟩ = false ∧
    isAvailableAwait false false (some true) = true :=
  ⟨rfl, rfl⟩

/-- C9 counterexample: `treeDebounceTimer` is module-level state shared by
every watcher session, so after session A schedules a tree regeneration
(pending fire at time 2000), running any other session's `dispose()` clears
that pending timer — refuting the claim that one session's disposal cannot
alter another session's pending timers. -/
theorem module_timer_sharing_counterexample :
    (scheduleTreeRegen 2000 0 ⟨none, none⟩).treeDebounceTimer = some 2000 ∧
    (sessionDispose (scheduleTreeRegen 2000 0 ⟨none, none⟩)).treeDebounceTimer = none ∧
    ¬ (sessionDispose (scheduleTreeRegen 2000 0 ⟨none, none⟩)).treeDebounceTimer
        = some 2000 := by
  refine ⟨rfl, rfl, by decide⟩

/-- C9 amended: the two debounce timers are module-level state shared by all
watcher sessions (watcher.ts keeps them in module scope so that
`extension.ts` can cancel them), so disposing any session — or calling
`cancelPendingTimers` — clears both shared pending timers no matter which
session scheduled them: sessions are not independently disposable. -/
theorem module_timer_shared_dispose (s : TimerState) (debounceMs now : Nat) :
    sessionDispose (scheduleTreeRegen debounceMs now s) = ⟨none, none⟩ ∧
    cancelPendingTimers (scheduleTreeRegen debounceMs now s) = ⟨none, none⟩ ∧
    sessionDispose s = cancelPendingTimers s :=
  ⟨rfl, rfl, rfl⟩

end AsciiAgent
